import Mathlib

/-!
Verification of the lot-based position accounting engine of the deepstock
repository (backend/app/services/portfolio.py and options.py).

Monetary amounts and share counts are Python floats in the source; we model
them as exact rationals (ℚ). Transaction lists are taken in `executed_at`
ascending order, matching the ordered queries the service issues.
-/

namespace DeepStock

/-- Truthiness-based fallback, matching Python `x or d` on an optional
numeric field: `None` and `0` both fall back to the default. -/
def pyOr (x : Option ℚ) (d : ℚ) : ℚ :=
  match x with
  | none => d
  | some v => if v = 0 then d else v

/-- Stock transaction type, the `type` column of the `transactions` table. -/
inductive TxType where
  | BUY
  | SELL
  deriving DecidableEq, Repr

@[simp] theorem TxType.buy_ne_sell : (TxType.BUY = TxType.SELL) ↔ False :=
  ⟨fun h => TxType.noConfusion h, False.elim⟩

@[simp] theorem TxType.sell_ne_buy : (TxType.SELL = TxType.BUY) ↔ False :=
  ⟨fun h => TxType.noConfusion h, False.elim⟩

/-- A stock transaction row, restricted to the fields `_recalculate_holding`,
`get_available_lots` and `delete_transaction` read. -/
structure StockTx where
  id : String
  txType : TxType
  shares : ℚ
  pricePerShare : ℚ
  totalAmount : ℚ
  totalAmountCzk : Option ℚ
  sourceTransactionId : Option String
  deriving DecidableEq, Repr

/-- An entry of the `buy_lots` working list in `_recalculate_holding`:
`{id, shares, price, amount_czk_per_share}`; `shares` is the remaining
(not yet consumed) share count of the lot. -/
structure Lot where
  id : String
  shares : ℚ
  price : ℚ
  amountCzkPerShare : ℚ
  deriving DecidableEq, Repr

/-- Result of matching one SELL against the lot queue: accumulated
`cost_of_sold`, `cost_of_sold_czk`, the value of `shares_to_sell` when the
matching stopped, and the updated `buy_lots` queue. -/
structure MatchResult where
  cost : ℚ
  costCzk : ℚ
  leftover : ℚ
  lots : List Lot
  deriving DecidableEq, Repr

/-- The FIFO loop of `_recalculate_holding`
(`while shares_to_sell > 0 and buy_lots:`): the oldest lot is consumed
entirely (and popped) when it does not exceed the demand, otherwise it is
partially reduced and the loop stops. -/
def fifo_consume : List Lot → ℚ → MatchResult
  | [], toSell => ⟨0, 0, toSell, []⟩
  | lot :: rest, toSell =>
    if 0 < toSell then
      if lot.shares ≤ toSell then
        let r := fifo_consume rest (toSell - lot.shares)
        ⟨lot.shares * lot.price + r.cost,
         lot.shares * lot.amountCzkPerShare + r.costCzk, r.leftover, r.lots⟩
      else
        ⟨toSell * lot.price, toSell * lot.amountCzkPerShare, 0,
         { lot with shares := lot.shares - toSell } :: rest⟩
    else ⟨0, 0, toSell, lot :: rest⟩

/-- The explicit-lot block of `_recalculate_holding` (`if source_tx_id:`):
scan for the first lot whose id equals `source_transaction_id`, consume
`min(lot.shares, shares_to_sell)` from it, drop it when emptied, and stop. -/
def sell_from_specific_lot : List Lot → String → ℚ → MatchResult
  | [], _, toSell => ⟨0, 0, toSell, []⟩
  | lot :: rest, source, toSell =>
    if lot.id = source then
      let sellFrom := min lot.shares toSell
      let newShares := lot.shares - sellFrom
      ⟨sellFrom * lot.price, sellFrom * lot.amountCzkPerShare, toSell - sellFrom,
       if newShares ≤ 0 then rest else { lot with shares := newShares } :: rest⟩
    else
      let r := sell_from_specific_lot rest source toSell
      ⟨r.cost, r.costCzk, r.leftover, lot :: r.lots⟩

/-- One SELL processed against the lot queue, exactly as the SELL branch of
`_recalculate_holding` does it: the explicit-lot block first when a
`source_transaction_id` is present, then the FIFO loop on whatever demand
is left. -/
def apply_sell (lots : List Lot) (sellShares : ℚ) (source : Option String) :
    MatchResult :=
  match source with
  | none => fifo_consume lots sellShares
  | some s =>
    let r1 := sell_from_specific_lot lots s sellShares
    let r2 := fifo_consume r1.lots r1.leftover
    ⟨r1.cost + r2.cost, r1.costCzk + r2.costCzk, r2.leftover, r2.lots⟩

/-- The running state of the replay loop in `_recalculate_holding`; the
final state is what gets upserted into the `holdings` table. -/
structure HoldingState where
  shares : ℚ
  totalCost : ℚ
  totalInvestedCzk : ℚ
  realizedPnl : ℚ
  buyLots : List Lot
  deriving DecidableEq, Repr

def initialHoldingState : HoldingState := ⟨0, 0, 0, 0, []⟩

/-- One iteration of the `for tx in transactions:` loop of
`_recalculate_holding`. -/
def apply_tx (st : HoldingState) (tx : StockTx) : HoldingState :=
  match tx.txType with
  | TxType.BUY =>
    let txAmountCzk := pyOr tx.totalAmountCzk tx.totalAmount
    { st with
      shares := st.shares + tx.shares
      totalCost := st.totalCost + tx.totalAmount
      totalInvestedCzk := st.totalInvestedCzk + txAmountCzk
      buyLots := st.buyLots ++
        [⟨tx.id, tx.shares, tx.pricePerShare,
          if 0 < tx.shares then txAmountCzk / tx.shares else 0⟩] }
  | TxType.SELL =>
    let r := apply_sell st.buyLots tx.shares tx.sourceTransactionId
    { st with
      shares := st.shares - tx.shares
      totalCost := st.totalCost - r.cost
      totalInvestedCzk := st.totalInvestedCzk - r.costCzk
      realizedPnl := st.realizedPnl + (tx.shares * tx.pricePerShare - r.cost)
      buyLots := r.lots }

/-- Full replay of `_recalculate_holding` over the ordered transaction
history of one (portfolio, stock) aggregate. -/
def recalculate_holding (txs : List StockTx) : HoldingState :=
  txs.foldl apply_tx initialHoldingState

/-- A record returned by `get_available_lots`. -/
structure AvailableLot where
  id : String
  quantity : ℚ
  remainingShares : ℚ
  pricePerShare : ℚ
  deriving DecidableEq, Repr

/-- Sum of the shares of SELL transactions that reference `lotId` through
`source_transaction_id` (the `sold_per_lot` dictionary of
`get_available_lots`). -/
def sold_per_lot (txs : List StockTx) (lotId : String) : ℚ :=
  (txs.filter (fun t =>
    decide (t.txType = TxType.SELL) &&
      decide (t.sourceTransactionId = some lotId))).foldl
    (fun acc t => acc + t.shares) 0

/-- The `get_available_lots` computation for one (portfolio, stock)
aggregate: every BUY, in executed order, with
`remaining = shares − sold_per_lot[id]`, kept when `remaining > 0`. Only
SELLs carrying a `source_transaction_id` are subtracted; FIFO (source-less)
SELLs are not consulted by this function. -/
def get_available_lots (txs : List StockTx) : List AvailableLot :=
  (((txs.filter (fun t => decide (t.txType = TxType.BUY)))).filter
      (fun buy => decide (0 < buy.shares - sold_per_lot txs buy.id))).map
    (fun buy =>
      ⟨buy.id, buy.shares, buy.shares - sold_per_lot txs buy.id,
       buy.pricePerShare⟩)

/-- The option_type column. -/
inductive OptionType where
  | call
  | put
  deriving DecidableEq, Repr

/-- The position direction of an `option_holdings` row. -/
inductive Position where
  | long
  | short
  deriving DecidableEq, Repr

/-- Option transaction actions. -/
inductive OptionAction where
  | BTO
  | STC
  | STO
  | BTC
  | EXPIRATION
  | ASSIGNMENT
  | EXERCISE
  deriving DecidableEq, Repr

/-- The fields of an `option_holdings` row that `close_position` and
`_create_stock_transaction_for_option_close` read. -/
structure OptionHolding where
  position : Position
  contracts : ℕ
  avgPremium : Option ℚ
  optionType : OptionType
  strikePrice : ℚ
  deriving DecidableEq, Repr

/-- The `valid_close_actions` dictionary in `close_position`. -/
def valid_close_actions : Position → List OptionAction
  | Position.long =>
    [OptionAction.STC, OptionAction.EXPIRATION, OptionAction.EXERCISE]
  | Position.short =>
    [OptionAction.BTC, OptionAction.EXPIRATION, OptionAction.ASSIGNMENT]

/-- The realized-P/L cascade of `close_position` (IBKR style, multiplier
100); any action outside the closing ones leaves the initial `0.0`. -/
def realized_pl_calc (closingAction : OptionAction) (position : Position)
    (avgPremium closingPremium : ℚ) (contracts : ℕ) : ℚ :=
  match closingAction with
  | OptionAction.BTC => (avgPremium - closingPremium) * contracts * 100
  | OptionAction.STC => (closingPremium - avgPremium) * contracts * 100
  | OptionAction.EXPIRATION =>
    match position with
    | Position.short => avgPremium * contracts * 100
    | Position.long => -avgPremium * contracts * 100
  | _ => 0

/-- The stock transaction row synthesized by
`_create_stock_transaction_for_option_close`, restricted to the fields the
claims are about. -/
structure SynthStockTx where
  txType : TxType
  shares : ℕ
  pricePerShare : ℚ
  totalAmount : ℚ
  sourceTransactionId : Option String
  deriving DecidableEq, Repr

/-- The option closing row inserted by `close_position`, restricted to the
fields the claims are about. -/
structure OptionCloseTx where
  action : OptionAction
  contracts : ℕ
  premium : ℚ
  totalPremium : ℚ
  hasLinkedStockTx : Bool
  deriving DecidableEq, Repr

/-- A persisted effect of `close_position`: an insert into `transactions`,
the holdings recompute done right after it, or an insert into
`option_transactions`. -/
inductive WriteOp where
  | stockInsert (tx : SynthStockTx)
  | holdingRecalc
  | optionInsert (tx : OptionCloseTx)
  deriving DecidableEq, Repr

/-- Typed rendering of the failure modes of `close_position`: the
`ValueError`s it raises, plus a failed store insert. -/
inductive CloseError where
  | noOpenPosition
  | invalidClosingAction
  | overClose
  | missingSourceLot
  | storeFailure
  deriving DecidableEq, Repr

/-- The successful outcome of `close_position`. -/
structure CloseResult where
  stockTx : Option SynthStockTx
  optionTx : OptionCloseTx
  realizedPl : ℚ
  deriving DecidableEq, Repr

/-- Model of `_create_stock_transaction_for_option_close`. `stockInsertOk`
injects success or failure of the insert into the `transactions` table;
all other steps are deterministic. On failure the exception propagates and
nothing is persisted; on success the insert is followed by the
`_recalculate_holding` call. -/
def create_stock_transaction_for_option_close (stockInsertOk : Bool)
    (h : OptionHolding) (closingAction : OptionAction) (contracts : ℕ)
    (source : Option String) : Except CloseError SynthStockTx × List WriteOp :=
  let strike := h.strikePrice
  let avgPremium := pyOr h.avgPremium 0
  let shares := contracts * 100
  let txType :=
    if closingAction = OptionAction.ASSIGNMENT then
      if h.optionType = OptionType.put then TxType.BUY else TxType.SELL
    else
      if h.optionType = OptionType.call then TxType.BUY else TxType.SELL
  let effectivePrice :=
    if closingAction = OptionAction.ASSIGNMENT ∧ h.position = Position.short then
      if txType = TxType.BUY then strike - avgPremium else strike + avgPremium
    else strike
  if txType = TxType.SELL ∧ source = none then
    (Except.error CloseError.missingSourceLot, [])
  else if stockInsertOk then
    let tx : SynthStockTx :=
      ⟨txType, shares, effectivePrice, (shares : ℚ) * effectivePrice,
       if txType = TxType.SELL then source else none⟩
    (Except.ok tx, [WriteOp.stockInsert tx, WriteOp.holdingRecalc])
  else (Except.error CloseError.storeFailure, [])

/-- Model of `close_position`. The `option_holdings` view row for the
symbol (or `none` when no open position exists) is an input; the two
booleans inject success or failure of the stock-transaction insert and of
the option-transaction insert. The second component lists the writes that
remain persisted when the call returns or raises; the source performs no
rollback of earlier writes. -/
def close_position (stockInsertOk optionInsertOk : Bool)
    (holding : Option OptionHolding) (closingAction : OptionAction)
    (contracts : ℕ) (premium : Option ℚ) (source : Option String) :
    Except CloseError CloseResult × List WriteOp :=
  match holding with
  | none => (Except.error CloseError.noOpenPosition, [])
  | some h =>
    if closingAction ∈ valid_close_actions h.position then
      if contracts > h.contracts then
        (Except.error CloseError.overClose, [])
      else
        let avgPremium := pyOr h.avgPremium 0
        let closingPremium := pyOr premium 0
        let realizedPl :=
          realized_pl_calc closingAction h.position avgPremium closingPremium
            contracts
        let storedPremium :=
          if closingAction = OptionAction.BTC ∨
              closingAction = OptionAction.STC then
            closingPremium
          else avgPremium
        if closingAction = OptionAction.ASSIGNMENT ∨
            closingAction = OptionAction.EXERCISE then
          match create_stock_transaction_for_option_close stockInsertOk h
              closingAction contracts source with
          | (Except.error e, ws) => (Except.error e, ws)
          | (Except.ok stx, ws) =>
            let otx : OptionCloseTx :=
              ⟨closingAction, contracts, storedPremium, realizedPl, true⟩
            if optionInsertOk then
              (Except.ok ⟨some stx, otx, realizedPl⟩,
               ws ++ [WriteOp.optionInsert otx])
            else (Except.error CloseError.storeFailure, ws)
        else
          let otx : OptionCloseTx :=
            ⟨closingAction, contracts, storedPremium, realizedPl, false⟩
          if optionInsertOk then
            (Except.ok ⟨none, otx, realizedPl⟩, [WriteOp.optionInsert otx])
          else (Except.error CloseError.storeFailure, [])
    else (Except.error CloseError.invalidClosingAction, [])

/-- The stock-side store state `delete_transaction` operates on: the
transaction rows of one (portfolio, stock) aggregate together with the
materialized holding row. -/
structure StockStore where
  txs : List StockTx
  holding : HoldingState
  deriving DecidableEq, Repr

/-- The three ways `delete_transaction` can come back: row not found
(returns `False`), the dependent-sells `ValueError`, or a completed delete
followed by `_recalculate_holding`. -/
inductive DeleteOutcome where
  | notFound
  | hasDependentSells
  | deleted
  deriving DecidableEq, Repr

/-- Model of `delete_transaction`: look the row up; when it is a BUY and
any transaction references it as `source_transaction_id`, raise before
deleting anything; otherwise delete the row and recompute the holding. -/
def delete_transaction (st : StockStore) (txId : String) :
    DeleteOutcome × StockStore :=
  match st.txs.find? (fun t => decide (t.id = txId)) with
  | none => (DeleteOutcome.notFound, st)
  | some tx =>
    if tx.txType = TxType.BUY ∧
        st.txs.any (fun s => decide (s.sourceTransactionId = some txId)) then
      (DeleteOutcome.hasDependentSells, st)
    else
      let newTxs := st.txs.filter (fun t => !decide (t.id = txId))
      (DeleteOutcome.deleted, ⟨newTxs, recalculate_holding newTxs⟩)

/-!
Spec-side description of FIFO consumption, written from the specification's
words: a demand of `toSell` shares walks the open-lot queue oldest first,
taking from each lot the minimum of that lot's remaining shares and the
demand still outstanding, so that each lot is depleted before the next is
touched. The code-side `fifo_consume` is proved to refine it.
-/

/-- Shares consumed from each lot, in queue order, by a pure-FIFO sell of
`toSell` shares. -/
def consumed_fifo : List Lot → ℚ → List ℚ
  | [], _ => []
  | lot :: rest, toSell =>
    min lot.shares toSell ::
      consumed_fifo rest (toSell - min lot.shares toSell)

/-- Spec-side cost of a pure-FIFO sell: the sum over lots of
shares-consumed times that lot's price. -/
def fifo_cost_spec (lots : List Lot) (toSell : ℚ) : ℚ :=
  (List.zipWith (fun c lot => c * lot.price) (consumed_fifo lots toSell)
    lots).sum

/-- Spec-side base-currency cost of a pure-FIFO sell. -/
def fifo_cost_czk_spec (lots : List Lot) (toSell : ℚ) : ℚ :=
  (List.zipWith (fun c lot => c * lot.amountCzkPerShare)
    (consumed_fifo lots toSell) lots).sum

/-- Spec-side remaining queue after a pure-FIFO sell: each lot keeps its
shares minus what the sell consumed from it, and exhausted lots drop out. -/
def fifo_remaining_spec (lots : List Lot) (toSell : ℚ) : List Lot :=
  (List.zipWith (fun c lot => { lot with shares := lot.shares - c })
    (consumed_fifo lots toSell) lots).filter
    (fun lot => decide (0 < lot.shares))

theorem fifo_cost_spec_nil (toSell : ℚ) : fifo_cost_spec [] toSell = 0 := rfl

theorem fifo_cost_spec_cons (lot : Lot) (rest : List Lot) (toSell : ℚ) :
    fifo_cost_spec (lot :: rest) toSell =
      min lot.shares toSell * lot.price +
        fifo_cost_spec rest (toSell - min lot.shares toSell) := by
  simp [fifo_cost_spec, consumed_fifo]

theorem fifo_cost_czk_spec_cons (lot : Lot) (rest : List Lot) (toSell : ℚ) :
    fifo_cost_czk_spec (lot :: rest) toSell =
      min lot.shares toSell * lot.amountCzkPerShare +
        fifo_cost_czk_spec rest (toSell - min lot.shares toSell) := by
  simp [fifo_cost_czk_spec, consumed_fifo]

theorem fifo_remaining_spec_cons (lot : Lot) (rest : List Lot) (toSell : ℚ) :
    fifo_remaining_spec (lot :: rest) toSell =
      if 0 < lot.shares - min lot.shares toSell then
        { lot with shares := lot.shares - min lot.shares toSell } ::
          fifo_remaining_spec rest (toSell - min lot.shares toSell)
      else fifo_remaining_spec rest (toSell - min lot.shares toSell) := by
  simp only [fifo_remaining_spec, consumed_fifo, List.zipWith_cons_cons,
    List.filter_cons, decide_eq_true_eq]

theorem consumed_fifo_zero (lots : List Lot)
    (h : ∀ l ∈ lots, 0 ≤ l.shares) :
    consumed_fifo lots 0 = lots.map (fun _ => (0 : ℚ)) := by
  induction lots with
  | nil => rfl
  | cons lot rest ih =>
    have h0 : (0 : ℚ) ≤ lot.shares := h lot (List.mem_cons_self _ _)
    have hmin : min lot.shares (0 : ℚ) = 0 := min_eq_right h0
    simp [consumed_fifo, hmin, ih (fun l hl => h l (List.mem_cons_of_mem _ hl))]

theorem fifo_cost_spec_zero (lots : List Lot)
    (h : ∀ l ∈ lots, 0 ≤ l.shares) : fifo_cost_spec lots 0 = 0 := by
  rw [fifo_cost_spec, consumed_fifo_zero lots h]
  induction lots with
  | nil => rfl
  | cons lot rest ih =>
    simpa using ih (fun l hl => h l (List.mem_cons_of_mem _ hl))

theorem fifo_cost_czk_spec_zero (lots : List Lot)
    (h : ∀ l ∈ lots, 0 ≤ l.shares) : fifo_cost_czk_spec lots 0 = 0 := by
  rw [fifo_cost_czk_spec, consumed_fifo_zero lots h]
  induction lots with
  | nil => rfl
  | cons lot rest ih =>
    simpa using ih (fun l hl => h l (List.mem_cons_of_mem _ hl))

theorem consumed_fifo_sum_zero (lots : List Lot)
    (h : ∀ l ∈ lots, 0 ≤ l.shares) : (consumed_fifo lots 0).sum = 0 := by
  rw [consumed_fifo_zero lots h]
  simp

theorem fifo_remaining_spec_zero (lots : List Lot)
    (h : ∀ l ∈ lots, 0 < l.shares) : fifo_remaining_spec lots 0 = lots := by
  rw [fifo_remaining_spec,
    consumed_fifo_zero lots (fun l hl => le_of_lt (h l hl))]
  induction lots with
  | nil => rfl
  | cons lot rest ih =>
    have h0 : (0 : ℚ) < lot.shares := h lot (List.mem_cons_self _ _)
    simp only [List.map_cons, List.zipWith_cons_cons, List.filter_cons,
      sub_zero, decide_eq_true_eq]
    rw [if_pos h0]
    have := ih (fun l hl => h l (List.mem_cons_of_mem _ hl))
    simp_all

/-- The FIFO loop of the source refines the spec-side FIFO description:
cost, base-currency cost, the unmet demand, and the surviving queue all
match, for any queue of positive lots and any nonnegative demand. -/
theorem fifo_consume_eq_spec (lots : List Lot) (toSell : ℚ)
    (hpos : ∀ l ∈ lots, 0 < l.shares) (h0 : 0 ≤ toSell) :
    fifo_consume lots toSell =
      ⟨fifo_cost_spec lots toSell, fifo_cost_czk_spec lots toSell,
       toSell - (consumed_fifo lots toSell).sum,
       fifo_remaining_spec lots toSell⟩ := by
  induction lots generalizing toSell with
  | nil =>
    simp [fifo_consume, fifo_cost_spec, fifo_cost_czk_spec,
      fifo_remaining_spec, consumed_fifo]
  | cons lot rest ih =>
    have hl : (0 : ℚ) < lot.shares := hpos lot (List.mem_cons_self _ _)
    have hrest : ∀ l ∈ rest, 0 < l.shares :=
      fun l hl2 => hpos l (List.mem_cons_of_mem _ hl2)
    have hrest0 : ∀ l ∈ rest, (0 : ℚ) ≤ l.shares :=
      fun l hl2 => le_of_lt (hrest l hl2)
    rcases lt_or_eq_of_le h0 with ht | ht
    · by_cases hle : lot.shares ≤ toSell
      · have hmin : min lot.shares toSell = lot.shares := min_eq_left hle
        rw [fifo_consume, if_pos ht, if_pos hle,
          ih (toSell - lot.shares) hrest (by linarith),
          fifo_cost_spec_cons, fifo_cost_czk_spec_cons,
          fifo_remaining_spec_cons, hmin]
        have : ¬ (0 : ℚ) < lot.shares - lot.shares := by simp
        rw [if_neg this]
        simp [consumed_fifo, hmin]
        ring
      · have hlt : toSell < lot.shares := not_le.mp hle
        have hmin : min lot.shares toSell = toSell :=
          min_eq_right (le_of_lt hlt)
        rw [fifo_consume, if_pos ht, if_neg hle,
          fifo_cost_spec_cons, fifo_cost_czk_spec_cons,
          fifo_remaining_spec_cons, hmin]
        rw [if_pos (by linarith : (0 : ℚ) < lot.shares - toSell)]
        simp [consumed_fifo, hmin, fifo_cost_spec_zero rest hrest0,
          fifo_cost_czk_spec_zero rest hrest0,
          consumed_fifo_sum_zero rest hrest0,
          fifo_remaining_spec_zero rest hrest]
    · subst ht
      have hni : ¬ (0 : ℚ) < 0 := by simp
      rw [fifo_consume, if_neg hni,
        fifo_cost_spec_zero _ (fun l hl2 => le_of_lt (hpos l hl2)),
        fifo_cost_czk_spec_zero _ (fun l hl2 => le_of_lt (hpos l hl2)),
        consumed_fifo_sum_zero _ (fun l hl2 => le_of_lt (hpos l hl2)),
        fifo_remaining_spec_zero _ hpos]
      simp

/-- The explicit-lot block consumes `min(remaining, requested)` from the
first lot whose id matches, removes it when emptied, and touches nothing
else. -/
theorem sell_from_specific_lot_eq (pre : List Lot) (l : Lot)
    (post : List Lot) (toSell : ℚ) (hpre : ∀ x ∈ pre, x.id ≠ l.id) :
    sell_from_specific_lot (pre ++ l :: post) l.id toSell =
      ⟨min l.shares toSell * l.price,
       min l.shares toSell * l.amountCzkPerShare,
       toSell - min l.shares toSell,
       pre ++ (if l.shares - min l.shares toSell ≤ 0 then post
               else { l with shares := l.shares - min l.shares toSell } ::
                 post)⟩ := by
  induction pre with
  | nil => simp [sell_from_specific_lot]
  | cons x pre ih =>
    have hx : x.id ≠ l.id := hpre x (List.mem_cons_self _ _)
    have hpre2 : ∀ y ∈ pre, y.id ≠ l.id :=
      fun y hy => hpre y (List.mem_cons_of_mem _ hy)
    simp only [List.cons_append, sell_from_specific_lot, if_neg hx,
      List.append_eq, ih hpre2]

/-- When the demand strictly exceeds the total shares in the queue, the
FIFO loop consumes every lot entirely, charges the whole queue's cost, and
stops with the unmet demand left over and an empty queue. -/
theorem fifo_consume_exhausts (lots : List Lot) (toSell : ℚ)
    (h : ∀ l ∈ lots, 0 ≤ l.shares)
    (hlt : (lots.map Lot.shares).sum < toSell) :
    fifo_consume lots toSell =
      ⟨(lots.map (fun l => l.shares * l.price)).sum,
       (lots.map (fun l => l.shares * l.amountCzkPerShare)).sum,
       toSell - (lots.map Lot.shares).sum, []⟩ := by
  induction lots generalizing toSell with
  | nil => simp [fifo_consume]
  | cons lot rest ih =>
    have hrest : ∀ l ∈ rest, (0 : ℚ) ≤ l.shares :=
      fun l hl => h l (List.mem_cons_of_mem _ hl)
    have hsum : (0 : ℚ) ≤ (rest.map Lot.shares).sum := by
      apply List.sum_nonneg
      intro x hx
      rcases List.mem_map.mp hx with ⟨l, hl, rfl⟩
      exact hrest l hl
    have hcons : (List.map Lot.shares (lot :: rest)).sum =
        lot.shares + (rest.map Lot.shares).sum := by simp
    have hl0 : (0 : ℚ) ≤ lot.shares := h lot (List.mem_cons_self _ _)
    have ht : 0 < toSell := by rw [hcons] at hlt; linarith
    have hle : lot.shares ≤ toSell := by rw [hcons] at hlt; linarith
    have hrec : (rest.map Lot.shares).sum < toSell - lot.shares := by
      rw [hcons] at hlt; linarith
    rw [fifo_consume, if_pos ht, if_pos hle, ih (toSell - lot.shares) hrest
      hrec]
    simp
    ring

/-! Concrete transactions used by the witnesses: the spec's running
example, BUY 10 at 10 dollars (lot A) then BUY 10 at 20 dollars (lot B). -/

def buyA : StockTx := ⟨"A", TxType.BUY, 10, 10, 100, none, none⟩
def buyB : StockTx := ⟨"B", TxType.BUY, 10, 20, 200, none, none⟩
def sell15 : StockTx := ⟨"S", TxType.SELL, 15, 30, 450, none, none⟩

theorem holdingAB_buyLots :
    (recalculate_holding [buyA, buyB]).buyLots =
      [⟨"A", 10, 10, 10⟩, ⟨"B", 10, 20, 20⟩] := by
  norm_num [recalculate_holding, apply_tx, initialHoldingState, buyA, buyB,
    pyOr]

end DeepStock

namespace DeepStock

/-- C1. A SELL carrying no `source_transaction_id` is matched purely FIFO:
the consumption per lot is `min(lot remaining, demand still outstanding)`
walking the queue oldest first (so each lot is depleted before the next is
touched), `cost_of_sold` is the sum over lots of shares-consumed times that
lot's price, the realized P&L recorded for the SELL is
`shares_sold × sell_price − cost_of_sold`, and the queue keeps each lot's
unconsumed shares with exhausted lots removed. -/
theorem fifo_sell_oldest_first (st : HoldingState) (tx : StockTx)
    (hsell : tx.txType = TxType.SELL)
    (hsrc : tx.sourceTransactionId = none)
    (hpos : ∀ l ∈ st.buyLots, 0 < l.shares) (h0 : 0 ≤ tx.shares) :
    (apply_sell st.buyLots tx.shares none).cost =
        fifo_cost_spec st.buyLots tx.shares ∧
      (apply_tx st tx).realizedPnl =
        st.realizedPnl + (tx.shares * tx.pricePerShare -
          fifo_cost_spec st.buyLots tx.shares) ∧
      (apply_tx st tx).buyLots = fifo_remaining_spec st.buyLots tx.shares := by
  have hfifo := fifo_consume_eq_spec st.buyLots tx.shares hpos h0
  refine ⟨?_, ?_, ?_⟩
  · simp [apply_sell, hfifo]
  · simp [apply_tx, hsell, hsrc, apply_sell, hfifo]
  · simp [apply_tx, hsell, hsrc, apply_sell, hfifo]

/-- Witness for C1 at the spec's example: lots A (10 at 10) and B
(10 at 20), SELL 15 with no lot specified gives cost_of_sold 200, leaves
lot A removed and lot B with 5 shares at price 20, and books realized P&L
by the claimed formula. -/
theorem fifo_sell_oldest_first_witness :
    (∀ l ∈ (recalculate_holding [buyA, buyB]).buyLots, 0 < l.shares) ∧
      (0 : ℚ) ≤ sell15.shares ∧
      fifo_cost_spec (recalculate_holding [buyA, buyB]).buyLots
        sell15.shares = 200 ∧
      (apply_tx (recalculate_holding [buyA, buyB]) sell15).buyLots =
        [⟨"B", 5, 20, 20⟩] ∧
      (apply_tx (recalculate_holding [buyA, buyB]) sell15).realizedPnl =
        (recalculate_holding [buyA, buyB]).realizedPnl +
          (sell15.shares * sell15.pricePerShare -
            fifo_cost_spec (recalculate_holding [buyA, buyB]).buyLots
              sell15.shares) := by
  have hpos : ∀ l ∈ (recalculate_holding [buyA, buyB]).buyLots,
      0 < l.shares := by
    rw [holdingAB_buyLots]
    intro l hl
    simp only [List.mem_cons, List.not_mem_nil, or_false] at hl
    rcases hl with rfl | rfl <;> norm_num
  have h0 : (0 : ℚ) ≤ sell15.shares := by norm_num [sell15]
  refine ⟨hpos, h0, ?_, ?_, (fifo_sell_oldest_first _ _ rfl rfl hpos h0).2.1⟩
  · rw [holdingAB_buyLots]
    norm_num [fifo_cost_spec, consumed_fifo, sell15, min_def]
  · norm_num [recalculate_holding, apply_tx, apply_sell, fifo_consume,
      initialHoldingState, buyA, buyB, sell15, pyOr]

end DeepStock

namespace DeepStock

/-- C2. A SELL carrying a `source_transaction_id` that identifies lot `l`
in the queue (queue = `pre ++ l :: post`, no earlier lot has that id)
consumes `min(l.remaining, requested)` from `l` first, at `l`'s price, and
only the excess is then matched FIFO oldest-first over the remaining
queue, in which `l` is reduced by what was taken (dropped when emptied)
and no other lot has been touched. -/
theorem explicit_lot_sell_consumes_source_first (pre : List Lot) (l : Lot)
    (post : List Lot) (toSell : ℚ) (hpre : ∀ x ∈ pre, x.id ≠ l.id)
    (hpos : ∀ x ∈ pre ++ l :: post, 0 < x.shares) (h0 : 0 ≤ toSell) :
    apply_sell (pre ++ l :: post) toSell (some l.id) =
      ⟨min l.shares toSell * l.price +
         fifo_cost_spec
           (pre ++ (if l.shares ≤ toSell then post
                    else { l with shares := l.shares - toSell } :: post))
           (toSell - min l.shares toSell),
       min l.shares toSell * l.amountCzkPerShare +
         fifo_cost_czk_spec
           (pre ++ (if l.shares ≤ toSell then post
                    else { l with shares := l.shares - toSell } :: post))
           (toSell - min l.shares toSell),
       (toSell - min l.shares toSell) -
         (consumed_fifo
           (pre ++ (if l.shares ≤ toSell then post
                    else { l with shares := l.shares - toSell } :: post))
           (toSell - min l.shares toSell)).sum,
       fifo_remaining_spec
         (pre ++ (if l.shares ≤ toSell then post
                  else { l with shares := l.shares - toSell } :: post))
         (toSell - min l.shares toSell)⟩ := by
  have hpre2 : ∀ x ∈ pre, 0 < x.shares :=
    fun x hx => hpos x (List.mem_append_left _ hx)
  have hl : 0 < l.shares :=
    hpos l (List.mem_append_right _ (List.mem_cons_self _ _))
  have hpost : ∀ x ∈ post, 0 < x.shares :=
    fun x hx => hpos x (List.mem_append_right _ (List.mem_cons_of_mem _ hx))
  have hqueue : ∀ x ∈ pre ++ (if l.shares ≤ toSell then post
      else { l with shares := l.shares - toSell } :: post), 0 < x.shares := by
    intro x hx
    rcases List.mem_append.mp hx with hx | hx
    · exact hpre2 x hx
    · by_cases hc : l.shares ≤ toSell
      · rw [if_pos hc] at hx
        exact hpost x hx
      · rw [if_neg hc] at hx
        rcases List.mem_cons.mp hx with rfl | hx
        · have : toSell < l.shares := not_le.mp hc
          simpa using by linarith
        · exact hpost x hx
  have hexcess : 0 ≤ toSell - min l.shares toSell := by
    have : min l.shares toSell ≤ toSell := min_le_right _ _
    linarith
  have hfifo := fifo_consume_eq_spec _ _ hqueue hexcess
  have hcase : (if l.shares - min l.shares toSell ≤ 0 then post
      else { l with shares := l.shares - min l.shares toSell } :: post) =
        (if l.shares ≤ toSell then post
         else { l with shares := l.shares - toSell } :: post) := by
    by_cases hc : l.shares ≤ toSell
    · rw [if_pos hc, if_pos (by rw [min_eq_left hc]; linarith)]
    · have hlt : toSell < l.shares := not_le.mp hc
      rw [if_neg hc, if_neg (by rw [min_eq_right (le_of_lt hlt)]; linarith),
        min_eq_right (le_of_lt hlt)]
  simp only [apply_sell, sell_from_specific_lot_eq pre l post toSell hpre,
    hcase, hfifo]

/-- Witness for C2 at the spec's example: lots A (10 at 10) and B
(10 at 20), SELL 5 with source lot B gives cost_of_sold 100, leaves B with
5 remaining shares and A untouched at 10. -/
theorem explicit_lot_sell_consumes_source_first_witness :
    (∀ x ∈ [(⟨"A", 10, 10, 10⟩ : Lot)], x.id ≠ "B") ∧
      (∀ x ∈ [(⟨"A", 10, 10, 10⟩ : Lot)] ++
          (⟨"B", 10, 20, 20⟩ : Lot) :: [], 0 < x.shares) ∧
      (0 : ℚ) ≤ 5 ∧
      apply_sell [⟨"A", 10, 10, 10⟩, ⟨"B", 10, 20, 20⟩] 5 (some "B") =
        ⟨100, 100, 0, [⟨"A", 10, 10, 10⟩, ⟨"B", 5, 20, 20⟩]⟩ := by
  have hpre : ∀ x ∈ [(⟨"A", 10, 10, 10⟩ : Lot)], x.id ≠ "B" := by
    intro x hx
    simp only [List.mem_singleton] at hx
    subst hx
    simp
  have hpos : ∀ x ∈ [(⟨"A", 10, 10, 10⟩ : Lot)] ++
      (⟨"B", 10, 20, 20⟩ : Lot) :: [], 0 < x.shares := by
    intro x hx
    simp only [List.singleton_append, List.mem_cons, List.not_mem_nil,
      or_false] at hx
    rcases hx with rfl | rfl <;> norm_num
  have h0 : (0 : ℚ) ≤ 5 := by norm_num
  refine ⟨hpre, hpos, h0, ?_⟩
  have happ := explicit_lot_sell_consumes_source_first
    [(⟨"A", 10, 10, 10⟩ : Lot)] (⟨"B", 10, 20, 20⟩ : Lot) [] 5 hpre hpos h0
  norm_num [fifo_cost_spec, fifo_cost_czk_spec, fifo_remaining_spec,
    consumed_fifo, min_def, List.filter_cons] at happ
  exact happ

end DeepStock

namespace DeepStock

/-- An overselling history: BUY 10 shares at 10 (lot A), then a FIFO SELL
of 15 shares at 20 against the same stock. -/
def oversellHistory : List StockTx :=
  [buyA, ⟨"S2", TxType.SELL, 15, 20, 300, none, none⟩]

/-- Counterexample to C7: the overselling SELL is not rejected anywhere.
`add_transaction` inserts it unconditionally and `_recalculate_holding`
replays it to a definite holding: the matcher consumed the only lot (cost
100), booked realized P&L 15 × 20 − 100 = 200, and left the holding with
−5 shares, instead of an `InsufficientShares` rejection before any write. -/
theorem oversell_not_rejected :
    (recalculate_holding oversellHistory).shares = -5 ∧
      (recalculate_holding oversellHistory).realizedPnl = 200 ∧
      (recalculate_holding oversellHistory).buyLots = [] := by
  norm_num [recalculate_holding, oversellHistory, buyA, apply_tx,
    apply_sell, fifo_consume, initialHoldingState, pyOr]

/-- C7 amended: a SELL (no source lot) whose share count strictly exceeds
the total remaining shares of the open lots is not rejected; the FIFO loop
consumes every lot, `cost_of_sold` covers only the shares that existed,
and the holding's share count drops below zero by the unmet excess. -/
theorem oversell_consumes_all_lots (st : HoldingState) (tx : StockTx)
    (hsell : tx.txType = TxType.SELL)
    (hsrc : tx.sourceTransactionId = none)
    (h : ∀ l ∈ st.buyLots, 0 ≤ l.shares)
    (hlt : ((st.buyLots.map Lot.shares).sum) < tx.shares) :
    (apply_tx st tx).buyLots = [] ∧
      (apply_tx st tx).realizedPnl =
        st.realizedPnl + (tx.shares * tx.pricePerShare -
          (st.buyLots.map (fun l => l.shares * l.price)).sum) ∧
      (apply_tx st tx).shares = st.shares - tx.shares := by
  have hex := fifo_consume_exhausts st.buyLots tx.shares h hlt
  refine ⟨?_, ?_, ?_⟩ <;> simp [apply_tx, hsell, hsrc, apply_sell, hex]

/-- Witness for the amended C7 at the counterexample history: one lot of
10 shares, SELL 15. -/
theorem oversell_consumes_all_lots_witness :
    (∀ l ∈ (recalculate_holding [buyA]).buyLots, (0 : ℚ) ≤ l.shares) ∧
      (((recalculate_holding [buyA]).buyLots.map Lot.shares).sum <
        (⟨"S2", TxType.SELL, 15, 20, 300, none, none⟩ : StockTx).shares) ∧
      (apply_tx (recalculate_holding [buyA])
          ⟨"S2", TxType.SELL, 15, 20, 300, none, none⟩).buyLots = [] ∧
      (apply_tx (recalculate_holding [buyA])
          ⟨"S2", TxType.SELL, 15, 20, 300, none, none⟩).shares =
        (recalculate_holding [buyA]).shares - 15 := by
  have hlots : (recalculate_holding [buyA]).buyLots = [⟨"A", 10, 10, 10⟩] := by
    norm_num [recalculate_holding, apply_tx, initialHoldingState, buyA, pyOr]
  have h : ∀ l ∈ (recalculate_holding [buyA]).buyLots, (0 : ℚ) ≤ l.shares := by
    rw [hlots]
    intro l hl
    simp only [List.mem_singleton] at hl
    subst hl
    norm_num
  have hlt : (((recalculate_holding [buyA]).buyLots.map Lot.shares).sum <
      (⟨"S2", TxType.SELL, 15, 20, 300, none, none⟩ : StockTx).shares) := by
    rw [hlots]
    norm_num
  have hmain := oversell_consumes_all_lots (recalculate_holding [buyA])
    ⟨"S2", TxType.SELL, 15, 20, 300, none, none⟩ rfl rfl h hlt
  exact ⟨h, hlt, hmain.1, hmain.2.2⟩

end DeepStock

namespace DeepStock

/-- Inversion of a successful `_create_stock_transaction_for_option_close`
run: the insert succeeded, the persisted writes are the stock insert and
the holding recompute, and the synthesized row carries the
action-and-type-determined transaction type, `contracts × 100` shares, the
premium-adjusted effective price, and the caller's lot only for SELLs. -/
theorem create_stock_tx_ok_inv (sOk : Bool) (h : OptionHolding)
    (act : OptionAction) (contracts : ℕ) (source : Option String)
    (stx : SynthStockTx) (ws : List WriteOp)
    (hok : create_stock_transaction_for_option_close sOk h act contracts
      source = (Except.ok stx, ws)) :
    sOk = true ∧
      ws = [WriteOp.stockInsert stx, WriteOp.holdingRecalc] ∧
      stx.txType =
        (if act = OptionAction.ASSIGNMENT then
          (if h.optionType = OptionType.put then TxType.BUY else TxType.SELL)
         else
          (if h.optionType = OptionType.call then TxType.BUY
           else TxType.SELL)) ∧
      stx.shares = contracts * 100 ∧
      stx.pricePerShare =
        (if act = OptionAction.ASSIGNMENT ∧ h.position = Position.short then
          (if stx.txType = TxType.BUY then
            h.strikePrice - pyOr h.avgPremium 0
           else h.strikePrice + pyOr h.avgPremium 0)
         else h.strikePrice) ∧
      ¬(stx.txType = TxType.SELL ∧ source = none) ∧
      stx.sourceTransactionId =
        (if stx.txType = TxType.SELL then source else none) := by
  simp only [create_stock_transaction_for_option_close] at hok
  by_cases hms : (if act = OptionAction.ASSIGNMENT then
      (if h.optionType = OptionType.put then TxType.BUY else TxType.SELL)
     else
      (if h.optionType = OptionType.call then TxType.BUY
       else TxType.SELL)) = TxType.SELL ∧ source = none
  · rw [if_pos hms] at hok
    exact absurd hok (by simp)
  · rw [if_neg hms] at hok
    cases sOk with
    | false => exact absurd hok (by simp)
    | true =>
      rw [if_pos rfl] at hok
      obtain ⟨h1, h2⟩ := Prod.mk.injEq .. |>.mp hok
      obtain h1 := Except.ok.injEq .. |>.mp h1
      subst h1
      refine ⟨rfl, h2.symm, rfl, rfl, rfl, hms, rfl⟩

/-- Inversion of a successful `close_position` run: the closing action
passed direction validation, the contract count passed the over-close
check, the realized P/L and the stored premium follow the source formulas,
and the persisted writes are exactly the stock insert plus holding
recompute (ASSIGNMENT/EXERCISE only) followed by the option insert. -/
theorem close_position_ok_inv (sOk oOk : Bool) (h : OptionHolding)
    (act : OptionAction) (contracts : ℕ) (premium : Option ℚ)
    (source : Option String) (r : CloseResult) (ws : List WriteOp)
    (hok : close_position sOk oOk (some h) act contracts premium source =
      (Except.ok r, ws)) :
    act ∈ valid_close_actions h.position ∧
      contracts ≤ h.contracts ∧
      oOk = true ∧
      r.realizedPl = realized_pl_calc act h.position (pyOr h.avgPremium 0)
        (pyOr premium 0) contracts ∧
      r.optionTx.action = act ∧
      r.optionTx.contracts = contracts ∧
      r.optionTx.totalPremium = r.realizedPl ∧
      r.optionTx.premium =
        (if act = OptionAction.BTC ∨ act = OptionAction.STC then
          pyOr premium 0
         else pyOr h.avgPremium 0) ∧
      ((act = OptionAction.ASSIGNMENT ∨ act = OptionAction.EXERCISE) →
        ∃ stx, r.stockTx = some stx ∧
          create_stock_transaction_for_option_close sOk h act contracts
            source =
            (Except.ok stx, [WriteOp.stockInsert stx,
              WriteOp.holdingRecalc]) ∧
          ws = [WriteOp.stockInsert stx, WriteOp.holdingRecalc,
            WriteOp.optionInsert r.optionTx]) ∧
      (¬(act = OptionAction.ASSIGNMENT ∨ act = OptionAction.EXERCISE) →
        r.stockTx = none ∧ ws = [WriteOp.optionInsert r.optionTx]) := by
  simp only [close_position] at hok
  by_cases hv : act ∈ valid_close_actions h.position
  · rw [if_pos hv] at hok
    by_cases hc : contracts > h.contracts
    · rw [if_pos hc] at hok
      exact absurd hok (by simp)
    · rw [if_neg hc] at hok
      by_cases hae : act = OptionAction.ASSIGNMENT ∨
          act = OptionAction.EXERCISE
      · rw [if_pos hae] at hok
        rcases hcr : create_stock_transaction_for_option_close sOk h act
            contracts source with ⟨res, ws2⟩
        rw [hcr] at hok
        cases res with
        | error e => simp at hok
        | ok stx =>
          cases oOk with
          | false => simp at hok
          | true =>
            simp only [Prod.mk.injEq, Except.ok.injEq, eq_self_iff_true,
              if_true] at hok
            obtain ⟨h1, h2⟩ := hok
            subst h1
            have hws2 := (create_stock_tx_ok_inv sOk h act contracts source
              stx ws2 hcr).2.1
            subst hws2
            exact ⟨hv, not_lt.mp hc, rfl, rfl, rfl, rfl, rfl, rfl,
              fun _ => ⟨stx, rfl, rfl, by rw [← h2]; rfl⟩,
              fun hcon => absurd hae hcon⟩
      · rw [if_neg hae] at hok
        cases oOk with
        | false => simp at hok
        | true =>
          simp only [Prod.mk.injEq, Except.ok.injEq, eq_self_iff_true,
            if_true] at hok
          obtain ⟨h1, h2⟩ := hok
          subst h1
          exact ⟨hv, not_lt.mp hc, rfl, rfl, rfl, rfl, rfl, rfl,
            fun hcon => absurd hcon hae, fun _ => ⟨rfl, h2.symm⟩⟩
  · rw [if_neg hv] at hok
    exact absurd hok (by simp)

/-- The spec's running option example: a short position of one PUT
contract, strike 50, opened for an average premium of 2.50. -/
def shortPutHolding : OptionHolding :=
  ⟨Position.short, 1, some (5 / 2), OptionType.put, 50⟩

end DeepStock

namespace DeepStock

/-- C4. For every successful `close_position` run, the realized P&L
recorded on the closing transaction (`total_premium`) is
`(avg_premium − closing_premium) × contracts × 100` for BTC,
`(closing_premium − avg_premium) × contracts × 100` for STC,
`+avg_premium × contracts × 100` for EXPIRATION of a short position,
`−avg_premium × contracts × 100` for EXPIRATION of a long position, and
exactly 0 for ASSIGNMENT and EXERCISE. -/
theorem close_position_realized_pl (sOk oOk : Bool) (h : OptionHolding)
    (act : OptionAction) (contracts : ℕ) (premium : Option ℚ)
    (source : Option String) (r : CloseResult) (ws : List WriteOp)
    (hok : close_position sOk oOk (some h) act contracts premium source =
      (Except.ok r, ws)) :
    (act = OptionAction.BTC → r.optionTx.totalPremium =
        (pyOr h.avgPremium 0 - pyOr premium 0) * contracts * 100) ∧
      (act = OptionAction.STC → r.optionTx.totalPremium =
        (pyOr premium 0 - pyOr h.avgPremium 0) * contracts * 100) ∧
      (act = OptionAction.EXPIRATION ∧ h.position = Position.short →
        r.optionTx.totalPremium = pyOr h.avgPremium 0 * contracts * 100) ∧
      (act = OptionAction.EXPIRATION ∧ h.position = Position.long →
        r.optionTx.totalPremium = -(pyOr h.avgPremium 0) * contracts * 100) ∧
      ((act = OptionAction.ASSIGNMENT ∨ act = OptionAction.EXERCISE) →
        r.optionTx.totalPremium = 0) := by
  obtain ⟨-, -, -, hpl, -, -, htot, -, -, -⟩ :=
    close_position_ok_inv sOk oOk h act contracts premium source r ws hok
  rw [htot, hpl]
  refine ⟨?_, ?_, ?_, ?_, ?_⟩
  · rintro rfl
    simp [realized_pl_calc]
  · rintro rfl
    simp [realized_pl_calc]
  · rintro ⟨rfl, hpos⟩
    simp [realized_pl_calc, hpos]
  · rintro ⟨rfl, hpos⟩
    simp [realized_pl_calc, hpos]
  · rintro (rfl | rfl) <;> simp [realized_pl_calc]

/-- Witness for C4 at the spec's example: STO 1 contract at premium 2.50,
then EXPIRATION of the short position realizes +250. -/
theorem close_position_realized_pl_witness :
    close_position true true (some shortPutHolding) OptionAction.EXPIRATION
        1 none none =
      (Except.ok ⟨none, ⟨OptionAction.EXPIRATION, 1, 5 / 2, 250, false⟩, 250⟩,
       [WriteOp.optionInsert ⟨OptionAction.EXPIRATION, 1, 5 / 2, 250, false⟩]) ∧
      (⟨none, ⟨OptionAction.EXPIRATION, 1, 5 / 2, 250, false⟩, 250⟩ :
          CloseResult).optionTx.totalPremium =
        pyOr shortPutHolding.avgPremium 0 * (1 : ℕ) * 100 := by
  have hok : close_position true true (some shortPutHolding)
      OptionAction.EXPIRATION 1 none none =
      (Except.ok ⟨none, ⟨OptionAction.EXPIRATION, 1, 5 / 2, 250, false⟩, 250⟩,
       [WriteOp.optionInsert ⟨OptionAction.EXPIRATION, 1, 5 / 2, 250, false⟩]) := by
    simp +decide [close_position, valid_close_actions, shortPutHolding,
      realized_pl_calc, pyOr]
    norm_num
  refine ⟨hok, ?_⟩
  have := (close_position_realized_pl true true shortPutHolding
    OptionAction.EXPIRATION 1 none none _ _ hok).2.2.1 ⟨rfl, rfl⟩
  simpa using this

/-- The claim C5 example holding: a short PUT, strike 50, average premium
2.00, one contract open. -/
def shortPut2Holding : OptionHolding :=
  ⟨Position.short, 1, some 2, OptionType.put, 50⟩

end DeepStock

namespace DeepStock

/-- C5. For every successful ASSIGNMENT or EXERCISE close, the synthesized
stock transaction has type BUY for an assigned put or an exercised call
and SELL for an assigned call or an exercised put; its per-share price is
`strike − avg_premium` for a put ASSIGNMENT, `strike + avg_premium` for a
call ASSIGNMENT, and exactly the strike for any EXERCISE; it covers 100
shares per contract. -/
theorem assignment_exercise_stock_tx (sOk oOk : Bool) (h : OptionHolding)
    (act : OptionAction) (contracts : ℕ) (premium : Option ℚ)
    (source : Option String) (r : CloseResult) (ws : List WriteOp)
    (stx : SynthStockTx)
    (hok : close_position sOk oOk (some h) act contracts premium source =
      (Except.ok r, ws))
    (hstx : r.stockTx = some stx) :
    (act = OptionAction.ASSIGNMENT ∧ h.optionType = OptionType.put →
        stx.txType = TxType.BUY ∧
          stx.pricePerShare = h.strikePrice - pyOr h.avgPremium 0) ∧
      (act = OptionAction.ASSIGNMENT ∧ h.optionType = OptionType.call →
        stx.txType = TxType.SELL ∧
          stx.pricePerShare = h.strikePrice + pyOr h.avgPremium 0) ∧
      (act = OptionAction.EXERCISE ∧ h.optionType = OptionType.call →
        stx.txType = TxType.BUY ∧ stx.pricePerShare = h.strikePrice) ∧
      (act = OptionAction.EXERCISE ∧ h.optionType = OptionType.put →
        stx.txType = TxType.SELL ∧ stx.pricePerShare = h.strikePrice) ∧
      stx.shares = contracts * 100 := by
  obtain ⟨hv, -, -, -, -, -, -, -, hsome, hnone⟩ :=
    close_position_ok_inv sOk oOk h act contracts premium source r ws hok
  by_cases hae : act = OptionAction.ASSIGNMENT ∨ act = OptionAction.EXERCISE
  · obtain ⟨stx2, hstx2, hcr, -⟩ := hsome hae
    rw [hstx2] at hstx
    have heq : stx2 = stx := Option.some.injEq .. |>.mp hstx
    rw [heq] at hcr
    obtain ⟨-, -, htype, hshares, hprice, -, -⟩ :=
      create_stock_tx_ok_inv sOk h act contracts source stx _ hcr
    refine ⟨?_, ?_, ?_, ?_, hshares⟩
    · rintro ⟨rfl, hot⟩
      have hshort : h.position = Position.short := by
        cases hpos : h.position
        · rw [hpos] at hv
          exact absurd hv (by decide)
        · rfl
      have ht : stx.txType = TxType.BUY := by
        rw [htype]
        simp [hot]
      refine ⟨ht, ?_⟩
      rw [hprice, ht, hshort]
      simp
    · rintro ⟨rfl, hot⟩
      have hshort : h.position = Position.short := by
        cases hpos : h.position
        · rw [hpos] at hv
          exact absurd hv (by decide)
        · rfl
      have ht : stx.txType = TxType.SELL := by
        rw [htype]
        simp [hot]
      refine ⟨ht, ?_⟩
      rw [hprice, ht, hshort]
      simp
    · rintro ⟨rfl, hot⟩
      have ht : stx.txType = TxType.BUY := by
        rw [htype]
        simp +decide [hot]
      refine ⟨ht, ?_⟩
      rw [hprice]
      simp +decide
    · rintro ⟨rfl, hot⟩
      have ht : stx.txType = TxType.SELL := by
        rw [htype]
        simp +decide [hot]
      refine ⟨ht, ?_⟩
      rw [hprice]
      simp +decide
  · rw [(hnone hae).1] at hstx
    exact absurd hstx (by simp)

/-- Witness for C5 at the spec's example: a short PUT with strike 50 and
avg_premium 2.00 that is assigned synthesizes a BUY of 100 shares at an
effective price of 48.00, with option realized P&L 0. -/
theorem assignment_exercise_stock_tx_witness :
    close_position true true (some shortPut2Holding) OptionAction.ASSIGNMENT
        1 none none =
      (Except.ok ⟨some ⟨TxType.BUY, 100, 48, 4800, none⟩,
        ⟨OptionAction.ASSIGNMENT, 1, 2, 0, true⟩, 0⟩,
       [WriteOp.stockInsert ⟨TxType.BUY, 100, 48, 4800, none⟩,
        WriteOp.holdingRecalc,
        WriteOp.optionInsert ⟨OptionAction.ASSIGNMENT, 1, 2, 0, true⟩]) ∧
      (⟨TxType.BUY, 100, 48, 4800, none⟩ : SynthStockTx).txType =
        TxType.BUY ∧
      (⟨TxType.BUY, 100, 48, 4800, none⟩ : SynthStockTx).pricePerShare =
        shortPut2Holding.strikePrice - pyOr shortPut2Holding.avgPremium 0 ∧
      (⟨TxType.BUY, 100, 48, 4800, none⟩ : SynthStockTx).shares = 1 * 100 := by
  have hok : close_position true true (some shortPut2Holding)
      OptionAction.ASSIGNMENT 1 none none =
      (Except.ok ⟨some ⟨TxType.BUY, 100, 48, 4800, none⟩,
        ⟨OptionAction.ASSIGNMENT, 1, 2, 0, true⟩, 0⟩,
       [WriteOp.stockInsert ⟨TxType.BUY, 100, 48, 4800, none⟩,
        WriteOp.holdingRecalc,
        WriteOp.optionInsert ⟨OptionAction.ASSIGNMENT, 1, 2, 0, true⟩]) := by
    simp +decide [close_position, create_stock_transaction_for_option_close,
      valid_close_actions, shortPut2Holding, realized_pl_calc, pyOr]
    norm_num
  have hmain := assignment_exercise_stock_tx true true shortPut2Holding
    OptionAction.ASSIGNMENT 1 none none _ _ _ hok rfl
  exact ⟨hok, (hmain.1 ⟨rfl, rfl⟩).1, (hmain.1 ⟨rfl, rfl⟩).2,
    hmain.2.2.2.2⟩

end DeepStock

namespace DeepStock

/-- C10. For every successful `close_position` run, the `premium` stored on
the created closing transaction equals the caller-supplied closing premium
(treated as 0 when absent) for BTC and STC, and equals the position's
average premium for EXPIRATION, ASSIGNMENT and EXERCISE. -/
theorem closing_tx_premium_field (sOk oOk : Bool) (h : OptionHolding)
    (act : OptionAction) (contracts : ℕ) (premium : Option ℚ)
    (source : Option String) (r : CloseResult) (ws : List WriteOp)
    (hok : close_position sOk oOk (some h) act contracts premium source =
      (Except.ok r, ws)) :
    ((act = OptionAction.BTC ∨ act = OptionAction.STC) →
        r.optionTx.premium = pyOr premium 0) ∧
      ((act = OptionAction.EXPIRATION ∨ act = OptionAction.ASSIGNMENT ∨
          act = OptionAction.EXERCISE) →
        r.optionTx.premium = pyOr h.avgPremium 0) := by
  obtain ⟨-, -, -, -, -, -, -, hprem, -, -⟩ :=
    close_position_ok_inv sOk oOk h act contracts premium source r ws hok
  rw [hprem]
  constructor
  · intro hbs
    rw [if_pos hbs]
  · rintro (rfl | rfl | rfl) <;> simp +decide

/-- Witness for C10: closing the short position with BTC at a supplied
premium of 0.50 stores 0.50 in the `premium` column (and realizes 200);
an EXPIRATION close stores the position's average premium instead. -/
theorem closing_tx_premium_field_witness :
    close_position true true (some shortPutHolding) OptionAction.BTC 1
        (some (1 / 2)) none =
      (Except.ok ⟨none, ⟨OptionAction.BTC, 1, 1 / 2, 200, false⟩, 200⟩,
       [WriteOp.optionInsert ⟨OptionAction.BTC, 1, 1 / 2, 200, false⟩]) ∧
      (⟨none, ⟨OptionAction.BTC, 1, 1 / 2, 200, false⟩, 200⟩ :
          CloseResult).optionTx.premium = pyOr (some (1 / 2)) 0 := by
  have hok : close_position true true (some shortPutHolding)
      OptionAction.BTC 1 (some (1 / 2)) none =
      (Except.ok ⟨none, ⟨OptionAction.BTC, 1, 1 / 2, 200, false⟩, 200⟩,
       [WriteOp.optionInsert ⟨OptionAction.BTC, 1, 1 / 2, 200, false⟩]) := by
    simp +decide [close_position, valid_close_actions, shortPutHolding,
      realized_pl_calc, pyOr]
    norm_num
  exact ⟨hok, (closing_tx_premium_field true true shortPutHolding
    OptionAction.BTC 1 (some (1 / 2)) none _ _ hok).1 (Or.inl rfl)⟩

end DeepStock

namespace DeepStock

/-- C8. Closing more contracts than the position has open fails before any
write: when the closing action is valid for the direction the error is the
over-close `ValueError`, and in every case the call raises with an empty
write set — no option transaction, no stock transaction, no holding
update. -/
theorem over_close_rejected (sOk oOk : Bool) (h : OptionHolding)
    (act : OptionAction) (contracts : ℕ) (premium : Option ℚ)
    (source : Option String) (hover : h.contracts < contracts) :
    (act ∈ valid_close_actions h.position →
        close_position sOk oOk (some h) act contracts premium source =
          (Except.error CloseError.overClose, [])) ∧
      (∃ e, close_position sOk oOk (some h) act contracts premium source =
        (Except.error e, [])) := by
  constructor
  · intro hv
    simp only [close_position]
    rw [if_pos hv, if_pos hover]
  · by_cases hv : act ∈ valid_close_actions h.position
    · refine ⟨CloseError.overClose, ?_⟩
      simp only [close_position]
      rw [if_pos hv, if_pos hover]
    · refine ⟨CloseError.invalidClosingAction, ?_⟩
      simp only [close_position]
      rw [if_neg hv]

/-- Witness for C8 at the spec's example: closing 10 contracts when only 5
are open fails with the over-close error and writes nothing. -/
theorem over_close_rejected_witness :
    ((⟨Position.short, 5, some (3 / 2), OptionType.call, 100⟩ :
        OptionHolding).contracts < 10) ∧
      OptionAction.BTC ∈ valid_close_actions
        (⟨Position.short, 5, some (3 / 2), OptionType.call, 100⟩ :
          OptionHolding).position ∧
      close_position true true
          (some ⟨Position.short, 5, some (3 / 2), OptionType.call, 100⟩)
          OptionAction.BTC 10 (some 1) none =
        (Except.error CloseError.overClose, []) := by
  have hover : ((⟨Position.short, 5, some (3 / 2), OptionType.call, 100⟩ :
      OptionHolding).contracts < 10) := by norm_num
  have hv : OptionAction.BTC ∈ valid_close_actions
      (⟨Position.short, 5, some (3 / 2), OptionType.call, 100⟩ :
        OptionHolding).position := by decide
  exact ⟨hover, hv, (over_close_rejected true true _ OptionAction.BTC 10
    (some 1) none hover).1 hv⟩

/-- Counterexample to C6: `close_position` performs no rollback. With the
ASSIGNMENT of the short PUT (strike 50, avg premium 2), when the stock
transaction insert succeeds and the option transaction insert then fails,
the call raises — yet the synthesized stock BUY and the holding recompute
remain persisted, so one record survives without the other. -/
theorem option_insert_failure_keeps_stock_write :
    close_position true false (some shortPut2Holding)
        OptionAction.ASSIGNMENT 1 none none =
      (Except.error CloseError.storeFailure,
       [WriteOp.stockInsert ⟨TxType.BUY, 100, 48, 4800, none⟩,
        WriteOp.holdingRecalc]) ∧
      WriteOp.stockInsert ⟨TxType.BUY, 100, 48, 4800, none⟩ ∈
        (close_position true false (some shortPut2Holding)
          OptionAction.ASSIGNMENT 1 none none).2 := by
  have h1 : close_position true false (some shortPut2Holding)
      OptionAction.ASSIGNMENT 1 none none =
      (Except.error CloseError.storeFailure,
       [WriteOp.stockInsert ⟨TxType.BUY, 100, 48, 4800, none⟩,
        WriteOp.holdingRecalc]) := by
    simp +decide [close_position, create_stock_transaction_for_option_close,
      valid_close_actions, shortPut2Holding, realized_pl_calc, pyOr]
    norm_num
  refine ⟨h1, ?_⟩
  rw [h1]
  simp

/-- C6 amended: the two writes of an ASSIGNMENT/EXERCISE close are ordered,
not atomic. If the stock-transaction insert fails, the exception propagates
before anything is persisted (no option record either); but if the stock
insert succeeds and the option-record insert then fails, the stock
transaction and the holding recompute remain persisted — there is no
rollback of the earlier write. -/
theorem close_position_partial_write_on_failure (oOk : Bool)
    (h : OptionHolding) (act : OptionAction) (contracts : ℕ)
    (premium : Option ℚ) (source : Option String) (stx : SynthStockTx)
    (ws1 : List WriteOp)
    (hv : act ∈ valid_close_actions h.position)
    (hc : ¬ contracts > h.contracts)
    (hae : act = OptionAction.ASSIGNMENT ∨ act = OptionAction.EXERCISE)
    (hcr : create_stock_transaction_for_option_close true h act contracts
      source = (Except.ok stx, ws1)) :
    close_position false oOk (some h) act contracts premium source =
        (Except.error CloseError.storeFailure, []) ∧
      close_position true false (some h) act contracts premium source =
        (Except.error CloseError.storeFailure,
         [WriteOp.stockInsert stx, WriteOp.holdingRecalc]) := by
  obtain ⟨-, hws1, htype, -, -, hms, -⟩ :=
    create_stock_tx_ok_inv true h act contracts source stx ws1 hcr
  have hms2 : ¬((if act = OptionAction.ASSIGNMENT then
      (if h.optionType = OptionType.put then TxType.BUY else TxType.SELL)
     else
      (if h.optionType = OptionType.call then TxType.BUY
       else TxType.SELL)) = TxType.SELL ∧ source = none) := by
    rw [← htype]
    exact hms
  constructor
  · simp only [close_position]
    rw [if_pos hv, if_neg hc, if_pos hae]
    have hfail : create_stock_transaction_for_option_close false h act
        contracts source = (Except.error CloseError.storeFailure, []) := by
      simp only [create_stock_transaction_for_option_close]
      rw [if_neg hms2]
      simp
    rw [hfail]
  · simp only [close_position]
    rw [if_pos hv, if_neg hc, if_pos hae, hcr]
    subst hws1
    simp

/-- Witness for the amended C6 at the assigned short PUT: with the stock
insert succeeding and the option insert failing, the persisted writes are
exactly the stock BUY at 48 and the holding recompute; with the stock
insert failing, nothing is persisted. -/
theorem close_position_partial_write_on_failure_witness :
    OptionAction.ASSIGNMENT ∈ valid_close_actions
        shortPut2Holding.position ∧
      ¬ (1 : ℕ) > shortPut2Holding.contracts ∧
      create_stock_transaction_for_option_close true shortPut2Holding
          OptionAction.ASSIGNMENT 1 none =
        (Except.ok ⟨TxType.BUY, 100, 48, 4800, none⟩,
         [WriteOp.stockInsert ⟨TxType.BUY, 100, 48, 4800, none⟩,
          WriteOp.holdingRecalc]) ∧
      close_position false false (some shortPut2Holding)
          OptionAction.ASSIGNMENT 1 none none =
        (Except.error CloseError.storeFailure, []) ∧
      close_position true false (some shortPut2Holding)
          OptionAction.ASSIGNMENT 1 none none =
        (Except.error CloseError.storeFailure,
         [WriteOp.stockInsert ⟨TxType.BUY, 100, 48, 4800, none⟩,
          WriteOp.holdingRecalc]) := by
  have hv : OptionAction.ASSIGNMENT ∈ valid_close_actions
      shortPut2Holding.position := by decide
  have hc : ¬ (1 : ℕ) > shortPut2Holding.contracts := by
    norm_num [shortPut2Holding]
  have hcr : create_stock_transaction_for_option_close true shortPut2Holding
      OptionAction.ASSIGNMENT 1 none =
      (Except.ok ⟨TxType.BUY, 100, 48, 4800, none⟩,
       [WriteOp.stockInsert ⟨TxType.BUY, 100, 48, 4800, none⟩,
        WriteOp.holdingRecalc]) := by
    simp +decide [create_stock_transaction_for_option_close,
      shortPut2Holding, pyOr]
    norm_num
  have hmain := close_position_partial_write_on_failure false
    shortPut2Holding OptionAction.ASSIGNMENT 1 none none
    ⟨TxType.BUY, 100, 48, 4800, none⟩ _ hv hc (Or.inl rfl) hcr
  exact ⟨hv, hc, hcr, hmain.1, hmain.2⟩

end DeepStock

namespace DeepStock

/-- C9. Deleting a BUY that any transaction references through
`source_transaction_id` fails with the dependent-sells `ValueError` and
returns the store untouched: no transaction is deleted and the holding row
is not recomputed. -/
theorem delete_buy_with_dependent_sells_rejected (st : StockStore)
    (txId : String) (tx : StockTx)
    (hfind : st.txs.find? (fun t => decide (t.id = txId)) = some tx)
    (hbuy : tx.txType = TxType.BUY)
    (hdep : ∃ s ∈ st.txs, s.sourceTransactionId = some txId) :
    delete_transaction st txId = (DeleteOutcome.hasDependentSells, st) := by
  have hany : st.txs.any
      (fun s => decide (s.sourceTransactionId = some txId)) = true := by
    rcases hdep with ⟨sx, hs, hsrc⟩
    exact List.any_eq_true.mpr ⟨sx, hs, by simp [hsrc]⟩
  simp only [delete_transaction]
  rw [hfind]
  simp [hbuy, hany]

/-- The store used by the C9 witness: lot A (BUY 10) together with a SELL
of 5 shares that names lot A as its source, plus the materialized holding. -/
def depStore : StockStore :=
  ⟨[buyA, ⟨"S4", TxType.SELL, 5, 12, 60, none, some "A"⟩],
   recalculate_holding [buyA, ⟨"S4", TxType.SELL, 5, 12, 60, none, some "A"⟩]⟩

/-- Witness for C9: deleting lot A from `depStore` fails with the
dependent-sells error and returns the store unchanged. -/
theorem delete_buy_with_dependent_sells_rejected_witness :
    depStore.txs.find? (fun t => decide (t.id = "A")) = some buyA ∧
      buyA.txType = TxType.BUY ∧
      (∃ s ∈ depStore.txs, s.sourceTransactionId = some "A") ∧
      delete_transaction depStore "A" =
        (DeleteOutcome.hasDependentSells, depStore) := by
  have hfind : depStore.txs.find? (fun t => decide (t.id = "A")) =
      some buyA := by
    simp +decide [depStore, buyA, List.find?]
  have hdep : ∃ s ∈ depStore.txs, s.sourceTransactionId = some "A" :=
    ⟨⟨"S4", TxType.SELL, 5, 12, 60, none, some "A"⟩, by simp [depStore],
      rfl⟩
  exact ⟨hfind, rfl, hdep,
    delete_buy_with_dependent_sells_rejected depStore "A" buyA hfind rfl
      hdep⟩

/-- A history with one BUY of 10 shares (lot A) and a FIFO SELL of 5
shares. -/
def fifoSellHistory : List StockTx :=
  [buyA, ⟨"S3", TxType.SELL, 5, 12, 60, none, none⟩]

/-- C3 fails on the code: after BUY 10 and a FIFO SELL of 5,
`get_available_lots` still reports 10 remaining shares for lot A — it
subtracts only SELLs that name a lot through `source_transaction_id` and
ignores FIFO consumption — while the recomputed holding carries 5 shares,
so the invariant `Σ remaining_shares(open lots) = Holding.shares` is
violated. (The sibling `get_all_open_lots` does subtract FIFO sells,
matching the invariant `_recalculate_holding` maintains.) -/
theorem available_lots_ignore_fifo_sells :
    ((get_available_lots fifoSellHistory).map
        (fun l => l.remainingShares)).sum = 10 ∧
      (recalculate_holding fifoSellHistory).shares = 5 ∧
      (10 : ℚ) ≠ 5 := by
  refine ⟨?_, ?_, by norm_num⟩
  · simp [get_available_lots, sold_per_lot, fifoSellHistory, buyA,
      List.filter_cons]
  · norm_num [recalculate_holding, fifoSellHistory, buyA, apply_tx,
      apply_sell, fifo_consume, initialHoldingState, pyOr]

end DeepStock
